import Mathlib

/-!
Verification development for the traffic-guard repository.

The Go sources are shallowly embedded: file contents are lists of
characters, iptables/ipset engine state is an explicit record, external
command invocations are recorded in a trace, and every service method of
the repository that the properties below mention is translated into an
executable Lean function that mirrors the Go control flow.
-/

namespace TrafficGuard

/-! ## Character-list utilities mirroring Go's strings package -/

/-- Number of start positions at which `pat` occurs in `s`
(occurrences counted by `strings.Contains`-style substring matching). -/
def countOcc (pat : List Char) : List Char → Nat
  | [] => 0
  | c :: rest => (if pat.isPrefixOf (c :: rest) then 1 else 0) + countOcc pat rest

/-- Substring test: `true` iff `pat` occurs contiguously in the second list. -/
def isSubOf (pat : List Char) : List Char → Bool
  | [] => pat.isEmpty
  | c :: rest => pat.isPrefixOf (c :: rest) || isSubOf pat rest

/-- Mirrors Go `strings.Contains(s, pat)`. -/
def containsSub (s pat : List Char) : Bool := isSubOf pat s

/-- Mirrors Go `strings.LastIndex(s, pat)`: the greatest index at which
`pat` occurs in `s`, or `none` when there is no occurrence. -/
def lastIndexOf (s pat : List Char) : Option Nat :=
  ((List.range (s.length + 1)).filter (fun i => pat.isPrefixOf (s.drop i))).getLast?

/-- The `COMMIT` sentinel searched for in UFW rule files
(`strings.LastIndex(content, "COMMIT\n")` in `saveWithUFW`). -/
def commitChars : List Char := "COMMIT\n".toList

/-- Index of the last `COMMIT` line terminator in a UFW rule file. -/
def lastCommitIdx (s : List Char) : Option Nat := lastIndexOf s commitChars

/-! ## Fixed identifiers from the source -/

/-- `chainName` constant of `internal/service/iptables.go`. -/
def chainName : String := "SCANNERS-BLOCK"

/-- `ipsetV4Name` constant of `internal/service/ipset.go`. -/
def ipsetV4Name : String := "SCANNERS-BLOCK-V4"

/-- `ipsetV6Name` constant of `internal/service/ipset.go`. -/
def ipsetV6Name : String := "SCANNERS-BLOCK-V6"

/-! ## RuleBuilder (src/unnamed/part_002, `RuleBuilder`)

A rule spec is the ordered token sequence the builder accumulates. Each
builder method appends its tokens to the accumulated spec. -/

/-- A rule spec: the canonical ordered argument list of one iptables rule. -/
abbrev RuleSpec := List String

/-- `NewRuleBuilder`: empty accumulated spec. -/
def rbNew : RuleSpec := []

/-- `RuleBuilder.MatchSet`. -/
def rbMatchSet (rb : RuleSpec) (setName flag : String) : RuleSpec :=
  rb ++ ["-m", "set", "--match-set", setName, flag]

/-- `RuleBuilder.MatchLimit`. -/
def rbMatchLimit (rb : RuleSpec) (rate burst : String) : RuleSpec :=
  (rb ++ ["-m", "limit", "--limit", rate]) ++
    (if burst ≠ "" then ["--limit-burst", burst] else [])

/-- `RuleBuilder.Jump`. -/
def rbJump (rb : RuleSpec) (target : String) : RuleSpec := rb ++ ["-j", target]

/-- `RuleBuilder.JumpChain`. -/
def rbJumpChain (rb : RuleSpec) (chain : String) : RuleSpec := rb ++ ["-j", chain]

/-- `RuleBuilder.LogPrefix` (renamed for Lean). -/
def rbLogPfx (rb : RuleSpec) (pfx : String) : RuleSpec := rb ++ ["--log-prefix", pfx]

/-- `RuleBuilder.LogLevel`. -/
def rbLogLevel (rb : RuleSpec) (level : String) : RuleSpec := rb ++ ["--log-level", level]

/-- The rate-limited LOG rule built in `setupIPv4Chain`/`setupIPv6Chain`:
`NewRuleBuilder().MatchSet(set, "src").MatchLimit("10/min", "5").Jump(LOG).LogPrefix(pfx).LogLevel("4").Build()`. -/
def mkLogRule (setName pfx : String) : RuleSpec :=
  rbLogLevel (rbLogPfx (rbJump (rbMatchLimit (rbMatchSet rbNew setName "src") "10/min" "5") "LOG") pfx) "4"

/-- The DROP rule built in `setupIPv4Chain`/`setupIPv6Chain`:
`NewRuleBuilder().MatchSet(set, "src").Jump(TargetDrop).Build()`. -/
def mkDropRule (setName : String) : RuleSpec :=
  rbJump (rbMatchSet rbNew setName "src") "DROP"

/-- The jump-to-chain hook rule `[]string{"-j", chainName}` used both for the
INPUT existence check and by `LinkChainToInput`. -/
def hookRule : RuleSpec := rbJumpChain rbNew chainName

/-- LOG rule of the IPv4 chain. -/
def logRuleV4 : RuleSpec := mkLogRule ipsetV4Name "ANTISCAN-v4: "

/-- LOG rule of the IPv6 chain. -/
def logRuleV6 : RuleSpec := mkLogRule ipsetV6Name "ANTISCAN-v6: "

/-- DROP rule of the IPv4 chain. -/
def dropRuleV4 : RuleSpec := mkDropRule ipsetV4Name

/-- DROP rule of the IPv6 chain. -/
def dropRuleV6 : RuleSpec := mkDropRule ipsetV6Name

/-! ## Engine state

The host's packet-filter and address-set engines, per IP family, as seen
through the command interfaces of `IptablesCommandService` and
`IpsetCommandService`. Chains of the filter table are a partial map from
chain name to rule list; absent means the chain does not exist. -/

/-- A named ipset set: `ipset create <name> hash:net family <f> hashsize <h> maxelem <m>`
plus its current membership in insertion order. -/
structure SetInfo where
  family : String
  hashSize : Nat
  maxElem : Nat
  members : List String
deriving DecidableEq

/-- Packet-filter and address-set engine state (filter table, both families). -/
structure Engine where
  chains4 : String → Option (List RuleSpec)
  chains6 : String → Option (List RuleSpec)
  sets : String → Option SetInfo

/-- Point update of a partial map keyed by chain/set name. -/
def upd {β : Type} (f : String → Option β) (k : String) (v : Option β) :
    String → Option β :=
  fun n => if n = k then v else f n

/-- `RuleExists` (`iptables -C`): the exact token sequence is present. -/
def ruleExistsIn (f : String → Option (List RuleSpec)) (ch : String)
    (spec : RuleSpec) : Bool :=
  match f ch with
  | some rs => rs.contains spec
  | none => false

/-- `InsertRule ... 1 ...` (`iptables -I <chain> 1`): prepend; a missing
chain leaves the engine unchanged (the command merely fails). -/
def insertRuleAt1 (f : String → Option (List RuleSpec)) (ch : String)
    (spec : RuleSpec) : String → Option (List RuleSpec) :=
  match f ch with
  | some rs => upd f ch (some (spec :: rs))
  | none => f

/-- `AppendRule` (`iptables -A`). -/
def appendRuleC (f : String → Option (List RuleSpec)) (ch : String)
    (spec : RuleSpec) : String → Option (List RuleSpec) :=
  match f ch with
  | some rs => upd f ch (some (rs ++ [spec]))
  | none => f

/-- `DeleteRule` (`iptables -D`): removes the first occurrence of the exact
token sequence; fails (no change) when chain or rule is absent. -/
def deleteRuleC (f : String → Option (List RuleSpec)) (ch : String)
    (spec : RuleSpec) : String → Option (List RuleSpec) :=
  match f ch with
  | some rs => upd f ch (some (rs.erase spec))
  | none => f

/-- The chain-existence check followed by `FlushChain` or `CreateChain` in
`setupIPv4Chain`/`setupIPv6Chain`: either way the chain exists and is empty. -/
def ensureChainFresh (f : String → Option (List RuleSpec)) (ch : String) :
    String → Option (List RuleSpec) :=
  if (f ch).isSome then upd f ch (some []) else upd f ch (some [])

/-- The `Link chain to INPUT (only if not using UFW)` block of
`setupIPv4Chain`/`setupIPv6Chain`: existence-check then insert at head. -/
def linkStep (linkToInput : Bool) (f : String → Option (List RuleSpec)) :
    String → Option (List RuleSpec) :=
  if linkToInput then
    if ruleExistsIn f "INPUT" hookRule then f else insertRuleAt1 f "INPUT" hookRule
  else f

/-- The `Add logging rule if enabled` block: existence-check then insert
at position 1 of the block chain. -/
def logStep (enableLogging : Bool) (setName pfx : String)
    (f : String → Option (List RuleSpec)) : String → Option (List RuleSpec) :=
  if enableLogging then
    if ruleExistsIn f chainName (mkLogRule setName pfx) then f
    else insertRuleAt1 f chainName (mkLogRule setName pfx)
  else f

/-- The `Add DROP rule` block: existence-check then append. -/
def dropStep (setName : String) (f : String → Option (List RuleSpec)) :
    String → Option (List RuleSpec) :=
  if ruleExistsIn f chainName (mkDropRule setName) then f
  else appendRuleC f chainName (mkDropRule setName)

/-- `setupIPv4Chain` / `setupIPv6Chain` on one family's chain map:
flush-or-create the block chain, optionally link it to INPUT, optionally
install the rate-limited LOG rule, and ensure the terminal DROP rule. -/
def setupFamilyChain (enableLogging linkToInput : Bool) (setName pfx : String)
    (f : String → Option (List RuleSpec)) : String → Option (List RuleSpec) :=
  dropStep setName (logStep enableLogging setName pfx
    (linkStep linkToInput (ensureChainFresh f chainName)))

/-- `isUFWActive`: ufw binary present and `ufw status` output contains
`Status: active`. -/
def isUFWActiveP (ufwInstalled : Bool) (ufwStatus : Option (List Char)) : Bool :=
  ufwInstalled &&
    match ufwStatus with
    | some out => containsSub out "Status: active".toList
    | none => false

/-- `IptablesService.SetupChain` acting on the engine: computes
`linkToInput := !isUFWActive` and configures both families. -/
def setupChainE (enableLogging : Bool) (ufwInstalled : Bool)
    (ufwStatus : Option (List Char)) (e : Engine) : Engine :=
  let linkToInput := !(isUFWActiveP ufwInstalled ufwStatus)
  { e with
    chains4 := setupFamilyChain enableLogging linkToInput ipsetV4Name "ANTISCAN-v4: " e.chains4,
    chains6 := setupFamilyChain enableLogging linkToInput ipsetV6Name "ANTISCAN-v6: " e.chains6 }

/-- `IpsetService.setupSet`: flush the set when it exists, otherwise
`CreateHashNet name family 1024 65536`. -/
def setupSetE (name fam : String) (sets : String → Option SetInfo) :
    String → Option SetInfo :=
  match sets name with
  | some info => upd sets name (some { info with members := [] })
  | none => upd sets name (some ⟨fam, 1024, 65536, []⟩)

/-- `IpsetService.Setup`: IPv4 set then IPv6 set. -/
def setupSetsE (sets : String → Option SetInfo) : String → Option SetInfo :=
  setupSetE ipsetV6Name "inet6" (setupSetE ipsetV4Name "inet" sets)

/-- `ipset add`: fails (leaving the set unchanged) when the entry is already
a member or the set does not exist; best-effort in `fillSet`. -/
def ipsetAddE (sets : String → Option SetInfo) (name entry : String) :
    String → Option SetInfo :=
  match sets name with
  | some info =>
      if info.members.contains entry then sets
      else upd sets name (some { info with members := info.members ++ [entry] })
  | none => sets

/-- `IpsetService.fillSet`: add every subnet of the list, counting failures
without aborting. -/
def fillSetE (sets : String → Option SetInfo) (name : String)
    (subnets : List String) : String → Option SetInfo :=
  subnets.foldl (fun s x => ipsetAddE s name x) sets

/-! ## NetworkList and the downloader (internal/domain/network.go, Downloader) -/

/-- `domain.NetworkList`. -/
structure NetworkList where
  IPv4Subnets : List String
  IPv6Subnets : List String
deriving DecidableEq

/-- `domain.NewNetworkList`. -/
def NewNetworkList : NetworkList := ⟨[], []⟩

/-- `NetworkList.Add`. -/
def nlAdd (nl : NetworkList) (subnet : String) (isIPv6 : Bool) : NetworkList :=
  if isIPv6 then { nl with IPv6Subnets := nl.IPv6Subnets ++ [subnet] }
  else { nl with IPv4Subnets := nl.IPv4Subnets ++ [subnet] }

/-- Whitespace trimming on the underlying characters. -/
def trimChars (s : List Char) : List Char :=
  ((s.dropWhile Char.isWhitespace).reverse.dropWhile Char.isWhitespace).reverse

/-- Mirrors Go `strings.TrimSpace`. -/
def goTrim (s : String) : String := ⟨trimChars s.data⟩

/-- Mirrors Go `strings.HasPrefix(s, "#")`. -/
def startsWithHash (s : String) : Bool :=
  match s.data with
  | '#' :: _ => true
  | _ => false

/-- `isIPv6Subnet`: the subnet string contains a colon. -/
def isIPv6Subnet (subnet : String) : Bool := subnet.data.contains ':'

/-- `IpsetService.Fill`: populate the IPv4 set then the IPv6 set. -/
def fillE (sets : String → Option SetInfo) (networks : NetworkList) :
    String → Option SetInfo :=
  fillSetE (fillSetE sets ipsetV4Name networks.IPv4Subnets) ipsetV6Name networks.IPv6Subnets

/-- One full reconciliation as sequenced by `runFull`:
`ipsetSvc.Setup`, `ipsetSvc.Fill networks`, `iptablesSvc.SetupChain`. -/
def reconcile (enableLogging ufwInstalled : Bool) (ufwStatus : Option (List Char))
    (networks : NetworkList) (e : Engine) : Engine :=
  let e := { e with sets := setupSetsE e.sets }
  let e := { e with sets := fillE e.sets networks }
  setupChainE enableLogging ufwInstalled ufwStatus e

/-- Body of the per-line loop of `Downloader.Download`: trim, drop blanks
and `#` comments, skip subnets already seen, classify by `:`. The state is
the `seenSubnets` set (as a list) and the accumulated `NetworkList`. -/
def processLine (st : List String × NetworkList) (line : String) :
    List String × NetworkList :=
  let subnet := goTrim line
  if subnet = "" || startsWithHash subnet then st
  else if st.1.contains subnet then st
  else (st.1 ++ [subnet], nlAdd st.2 subnet (isIPv6Subnet subnet))

/-- One URL of `Downloader.Download`: a failed fetch (`none`) is logged and
skipped; a successful fetch contributes its lines. -/
def processUrl (st : List String × NetworkList) (fetched : Option (List String)) :
    List String × NetworkList :=
  match fetched with
  | none => st
  | some lines => lines.foldl processLine st

/-- `Downloader.Download` over the per-URL fetch results: the accumulated
`NetworkList` paired with the returned error, which is always `none`. -/
def downloadModel (fetched : List (Option (List String))) :
    NetworkList × Option String :=
  ((fetched.foldl processUrl ([], NewNetworkList)).2, none)

/-! ## UFW before.rules section injection (saveWithUFW) -/

/-- The idempotency marker `markerV4`/`markerV6` of `saveWithUFW`. -/
def markerChars : List Char := "# SCANNERS-BLOCK chain - managed by antiscan".toList

/-- The optional IPv4 LOG line `logRuleV4` of `saveWithUFW`. -/
def logLineV4 : List Char :=
  "-A SCANNERS-BLOCK -m set --match-set SCANNERS-BLOCK-V4 src -m limit --limit 10/min --limit-burst 5 -j LOG --log-prefix \"ANTISCAN-v4: \" --log-level 4\n".toList

/-- The optional IPv6 LOG line `logRuleV6` of `saveWithUFW`. -/
def logLineV6 : List Char :=
  "-A SCANNERS-BLOCK -m set --match-set SCANNERS-BLOCK-V6 src -m limit --limit 10/min --limit-burst 5 -j LOG --log-prefix \"ANTISCAN-v6: \" --log-level 4\n".toList

/-- The injected section `rulesV4` of `saveWithUFW` (chain declaration,
hook into `ufw-before-input`, optional LOG rule, terminal DROP rule). -/
def rulesTextV4 (enableLogging : Bool) : List Char :=
  "\n# SCANNERS-BLOCK chain - managed by antiscan\n# DO NOT EDIT THIS SECTION MANUALLY\n:SCANNERS-BLOCK - [0:0]\n-A ufw-before-input -j SCANNERS-BLOCK\n".toList ++
    (if enableLogging then logLineV4 else []) ++
    "-A SCANNERS-BLOCK -m set --match-set SCANNERS-BLOCK-V4 src -j DROP\n# END SCANNERS-BLOCK\n\n".toList

/-- The injected section `rulesV6` of `saveWithUFW`. -/
def rulesTextV6 (enableLogging : Bool) : List Char :=
  "\n# SCANNERS-BLOCK chain - managed by antiscan\n:SCANNERS-BLOCK - [0:0]\n-A ufw6-before-input -j SCANNERS-BLOCK\n".toList ++
    (if enableLogging then logLineV6 else []) ++
    "-A SCANNERS-BLOCK -m set --match-set SCANNERS-BLOCK-V6 src -j DROP\n# END SCANNERS-BLOCK\n\n".toList

/-- The persisted-file section injection of `saveWithUFW`: skip when the
idempotency marker is already present; otherwise splice the section
immediately before the last `COMMIT` line; `none` is the fatal
`no COMMIT found` outcome. -/
def injectRules (rules : List Char) (c : List Char) : Option (List Char) :=
  if containsSub c markerChars then some c
  else
    match lastCommitIdx c with
    | none => none
    | some i => some (c.take i ++ rules ++ c.drop i)

/-- IPv4 injection into `/etc/ufw/before.rules`. -/
def injectV4 (enableLogging : Bool) (c : List Char) : Option (List Char) :=
  injectRules (rulesTextV4 enableLogging) c

/-- IPv6 injection into `/etc/ufw/before6.rules`. -/
def injectV6 (enableLogging : Bool) (c : List Char) : Option (List Char) :=
  injectRules (rulesTextV6 enableLogging) c

/-! ## The world: engine, UFW state, persisted files, command trace -/

/-- Host state around the engine as read and written by
`IptablesService.Save` and its helpers. Each external command invocation
is appended to `trace`. -/
structure World where
  eng : Engine
  ufwInstalled : Bool
  nfPersistInstalled : Bool
  ufwStatus : Option (List Char)
  showAdded : Option (List Char)
  userRules : Option (List Char)
  user6Rules : Option (List Char)
  beforeRules : Option (List Char)
  before6Rules : Option (List Char)
  moveServiceInstalled : Bool
  trace : List (String × List String)

/-- SSH check of the safety gate on one UFW rules file
(`strings.Contains(rules, "dport 22") || strings.Contains(rules, "dport ssh")`);
an unreadable file contributes nothing. -/
def fileHasSSH : Option (List Char) → Bool
  | some c => containsSub c "dport 22".toList || containsSub c "dport ssh".toList
  | none => false

/-- SSH check of the safety gate on the `ufw show added` output; a failed
query contributes nothing. -/
def showAddedHasSSH : Option (List Char) → Bool
  | some out =>
      containsSub out "22/tcp".toList || containsSub out "22".toList ||
        containsSub out "OpenSSH".toList || containsSub out "ssh".toList
  | none => false

/-- The SSH safety gate of `saveWithUFW` (run when UFW is inactive):
check `user.rules`, then `user6.rules`, then — only when both are
negative — query `ufw show added`. Returns the `hasSSH` verdict. -/
def gateStep (w : World) : Bool × World :=
  let wasActive := isUFWActiveP w.ufwInstalled w.ufwStatus
  if !wasActive then
    let hasSSHFiles := fileHasSSH w.userRules || fileHasSSH w.user6Rules
    if hasSSHFiles then (true, w)
    else
      let w := { w with trace := w.trace ++ [("ufw", ["show", "added"])] }
      (showAddedHasSSH w.showAdded, w)
  else (true, w)

/-- The post-gate body of `saveWithUFW`: inject both before-rules sections,
toggle UFW off/on, re-prioritize the hook rule in both
`ufw-before-input` chains, and install the move-rules unit. -/
def restStep (enableLogging : Bool) (w : World) : Except String Unit × World :=
  match w.beforeRules with
    | none => (.error "failed to read UFW before.rules", w)
    | some c4 =>
      match injectV4 enableLogging c4 with
      | none => (.error "no COMMIT found in before.rules", w)
      | some c4' =>
        let w := { w with beforeRules := some c4' }
        let w :=
          match w.before6Rules with
          | none => w
          | some c6 =>
            match injectV6 enableLogging c6 with
            | none => w
            | some c6' => { w with before6Rules := some c6' }
        let w := { w with trace :=
          w.trace ++ [("ufw", ["--force", "disable"]), ("ufw", ["--force", "enable"])] }
        let c4new := insertRuleAt1 (deleteRuleC w.eng.chains4 "ufw-before-input" hookRule) "ufw-before-input" hookRule
        let w := { w with
          eng := { w.eng with chains4 := c4new },
          trace := w.trace ++
            [("iptables", ["-D", "ufw-before-input", "-j", chainName]),
             ("iptables", ["-I", "ufw-before-input", "1", "-j", chainName])] }
        let c6new := insertRuleAt1 (deleteRuleC w.eng.chains6 "ufw6-before-input" hookRule) "ufw6-before-input" hookRule
        let w := { w with
          eng := { w.eng with chains6 := c6new },
          trace := w.trace ++
            [("ip6tables", ["-D", "ufw6-before-input", "-j", chainName]),
             ("ip6tables", ["-I", "ufw6-before-input", "1", "-j", chainName])] }
        let w := { w with moveServiceInstalled := true, trace :=
          w.trace ++ [("systemctl", ["daemon-reload"]),
            ("systemctl", ["enable", "antiscan-move-rules.service"])] }
        (.ok (), w)

/-- `IptablesService.saveWithUFW`: safety gate when UFW is inactive, then
the injection/reload/re-prioritization body. -/
def saveWithUFW (enableLogging : Bool) (w : World) : Except String Unit × World :=
  let w := { w with trace := w.trace ++ [("ufw", ["status"])] }
  let gate := gateStep w
  if !gate.1 then
    (.error "SSH not allowed in UFW - installation aborted to prevent server lockout",
      gate.2)
  else restStep enableLogging gate.2

/-- `IptablesService.Save`: integrate with UFW when installed, otherwise
persist through netfilter-persistent. -/
def Save (enableLogging : Bool) (w : World) : Except String Unit × World :=
  if w.ufwInstalled then saveWithUFW enableLogging w
  else if !w.nfPersistInstalled then
    (.error "netfilter-persistent is not installed", w)
  else
    let w := { w with trace := w.trace ++
      [("sh", ["-c", "iptables-save > /etc/iptables/rules.v4"]),
       ("sh", ["-c", "ip6tables-save > /etc/iptables/rules.v6"]),
       ("netfilter-persistent", ["save"])] }
    (.ok (), w)

/-- `IptablesService.SetupChain` acting on the world. -/
def setupChainW (enableLogging : Bool) (w : World) : World :=
  { w with eng := setupChainE enableLogging w.ufwInstalled w.ufwStatus w.eng }

/-- The chain-hooking portion of one run: `SetupChain` followed by `Save`. -/
def runSetupAndSave (enableLogging : Bool) (w : World) : Except String Unit × World :=
  Save enableLogging (setupChainW enableLogging w)

/-- Number of occurrences of the jump-to-chain hook rule in a chain. -/
def countHookIn : Option (List RuleSpec) → Nat
  | some rs => rs.count hookRule
  | none => 0

/-- Hook rules referencing the block chain in the IPv4 evaluated input path:
directly in INPUT plus via `ufw-before-input`. -/
def hookCount4 (w : World) : Nat :=
  countHookIn (w.eng.chains4 "INPUT") + countHookIn (w.eng.chains4 "ufw-before-input")

/-- Hook rules referencing the block chain in the IPv6 evaluated input path. -/
def hookCount6 (w : World) : Nat :=
  countHookIn (w.eng.chains6 "INPUT") + countHookIn (w.eng.chains6 "ufw6-before-input")

/-- A state-toggling call on the competing manager:
`ufw --force disable` or `ufw --force enable`. -/
def isToggleCmd (c : String × List String) : Bool :=
  c == ("ufw", ["--force", "disable"]) || c == ("ufw", ["--force", "enable"])

/-! ## WHOIS cache of the aggregation script
(internal/service/systemd_templates.go, AggregateLogsScriptTemplate)

The cache file `/tmp/antiscan-whois-cache.txt` holds `IP|ASN|NETNAME`
lines. Each run first runs `find "$WHOIS_CACHE" -mtime +1 -delete`, which
deletes the file when its age truncated to whole 24-hour periods exceeds
one (last write at least two full days ago), and then touches it. `addedAt`
is the (ghost) time an entry was appended; the file's modification time is
the time of the most recent write. External reverse-WHOIS lookups are
abstracted by the `resolve` oracle; performed lookups are logged in
`queries`. -/

/-- One `IP|ASN|NETNAME` line of the WHOIS cache. -/
structure WhoisEntry where
  ip : String
  asn : String
  netname : String
  addedAt : Nat
deriving DecidableEq

/-- WHOIS cache file plus the log of external queries performed. -/
structure WhoisSt where
  entries : List WhoisEntry
  mtime : Nat
  queries : List String
deriving DecidableEq

/-- The staleness window of the cache file: one day, in seconds. -/
def oneDaySec : Nat := 86400

/-- Cache maintenance at the start of one aggregation cycle:
`find "$WHOIS_CACHE" -mtime +1 -delete` then `touch "$WHOIS_CACHE"`.
`find -mtime +1` truncates the file's age to whole 24-hour periods and
matches when that count exceeds 1, so the file is deleted only when its
last modification is at least two full days before `now`. -/
def whoisCycleStart (now : Nat) (st : WhoisSt) : WhoisSt :=
  let st := if (now - st.mtime) / oneDaySec > 1 then { st with entries := [] } else st
  { st with mtime := now }

/-- Cache lookup `grep "^${ip}|" "$WHOIS_CACHE" | head -1`: first matching line. -/
def whoisCacheLookup (entries : List WhoisEntry) (ip : String) : Option WhoisEntry :=
  entries.find? (fun e => e.ip == ip)

/-- `get_ip_info`: return the cached pair on a hit; otherwise query the
registry once, append the result to the cache, and return it. -/
def getIpInfo (now : Nat) (resolve : String → String × String) (st : WhoisSt)
    (ip : String) : (String × String) × WhoisSt :=
  match whoisCacheLookup st.entries ip with
  | some e => ((e.asn, e.netname), st)
  | none =>
      let r := resolve ip
      ((r.1, r.2),
        { st with
          entries := st.entries ++ [⟨ip, r.1, r.2, now⟩],
          mtime := now,
          queries := st.queries ++ [ip] })

/-! ## Aggregate merge of the aggregation script

The awk block reads header-stripped rows of `OUTPUT_CSV` followed by the
batch rows of `TEMP_NEW`, sums `COUNT` per `(IP_TYPE, IP_ADDRESS)` key and
lets the last row win for `ASN`, `NETNAME` and `LAST_SEEN`; the result is
sorted descending by `COUNT` and written to a temporary file that is
renamed over the output. -/

/-- One `IP_TYPE|IP_ADDRESS|ASN|NETNAME|COUNT|LAST_SEEN` row. -/
structure AggRow where
  ipType : String
  ipAddr : String
  asn : String
  netname : String
  count : Nat
  lastSeen : String
deriving DecidableEq

/-- The awk array key `$1 "|" $2`. -/
def rowKey (r : AggRow) : String × String := (r.ipType, r.ipAddr)

/-- Processing one row into the awk accumulator arrays: counts sum for a
matching key; ASN, netname and last-seen are overwritten with the row's
values; an unseen key starts a new record. -/
def mergeInto (acc : List AggRow) (r : AggRow) : List AggRow :=
  if acc.any (fun x => rowKey x == rowKey r) then
    acc.map (fun x =>
      if rowKey x == rowKey r then
        { x with
          count := x.count + r.count,
          asn := r.asn,
          netname := r.netname,
          lastSeen := r.lastSeen }
      else x)
  else acc ++ [r]

/-- The whole awk pass over existing rows followed by batch rows. -/
def mergeAll (rows : List AggRow) : List AggRow := rows.foldl mergeInto []

/-- Insertion step of descending-by-count ordering (`sort -t'|' -k5 -nr`). -/
def insertByCountDesc (r : AggRow) : List AggRow → List AggRow
  | [] => [r]
  | x :: xs => if x.count ≤ r.count then r :: x :: xs else x :: insertByCountDesc r xs

/-- Sort the merged table descending by count. -/
def sortByCountDesc (l : List AggRow) : List AggRow := l.foldr insertByCountDesc []

/-- Merge one batch into the existing aggregate table and re-sort. -/
def aggregateMerged (existing batch : List AggRow) : List AggRow :=
  sortByCountDesc (mergeAll (existing ++ batch))

/-- Path of the aggregate CSV. -/
def outputCsvPath : String := "/var/log/iptables-scanners-aggregate.csv"

/-- Write-to-temp-then-rename: after `mv "${p}.new" "$p"` the target holds
the new content and the temporary path no longer exists. -/
def persistAtomic (fs : String → Option (List AggRow)) (path tmp : String)
    (content : List AggRow) : String → Option (List AggRow) :=
  fun p => if p = path then some content else if p = tmp then none else fs p

/-- The merge-and-persist step of one aggregation cycle: performed only
when the batch is non-empty (`if [ -s "$TEMP_NEW" ]`). -/
def runMergeStep (fs : String → Option (List AggRow)) (batch : List AggRow) :
    String → Option (List AggRow) :=
  if batch.isEmpty then fs
  else
    persistAtomic fs outputCsvPath (outputCsvPath ++ ".new")
      (aggregateMerged ((fs outputCsvPath).getD []) batch)

/-! ## Derived notions used in the statements -/

/-- The spec's reading of builder output ordering: the token sequence ends
with the two-token target `-j <target>`. -/
def endsWithJump (spec : RuleSpec) : Bool :=
  match spec.reverse with
  | _ :: j :: _ => j == "-j"
  | _ => false

/-- Chain contents produced for the block chain by one family setup:
optional LOG rule followed by the DROP rule. -/
def scannersRules (enableLogging : Bool) (setName pfx : String) : List RuleSpec :=
  (if enableLogging then [mkLogRule setName pfx] else []) ++ [mkDropRule setName]

/-- Value stored for a set by `setupSet`: existing metadata with membership
flushed, or a freshly created `hash:net` set. -/
def freshSetInfo (sets : String → Option SetInfo) (name fam : String) : SetInfo :=
  match sets name with
  | some info => { info with members := [] }
  | none => ⟨fam, 1024, 65536, []⟩

/-- Engine-level membership after best-effort population: duplicates
(within engine semantics) fail and change nothing. -/
def addList (ms : List String) (L : List String) : List String :=
  L.foldl (fun ms x => if ms.contains x then ms else ms ++ [x]) ms

/-- Download-loop invariant: every subnet occurs at most once over both
family lists, and subnets not yet seen do not occur at all. -/
def dlInv (st : List String × NetworkList) : Prop :=
  ∀ s : String,
    st.2.IPv4Subnets.count s + st.2.IPv6Subnets.count s ≤
      (if st.1.contains s then 1 else 0)

/-- Concrete world: UFW installed but inactive, an SSH rule present in
`user.rules`, a well-formed `before.rules`, both input-path chains empty. -/
def wC2 : World :=
  { eng :=
      { chains4 := fun n =>
          if n = "INPUT" then some []
          else if n = "ufw-before-input" then some [] else none
        chains6 := fun n =>
          if n = "INPUT" then some []
          else if n = "ufw6-before-input" then some [] else none
        sets := fun _ => none }
    ufwInstalled := true
    nfPersistInstalled := false
    ufwStatus := some "Status: inactive".toList
    showAdded := none
    userRules := some "-A ufw-user-input -p tcp --dport 22 -j ACCEPT".toList
    user6Rules := none
    beforeRules := some "*filter\nCOMMIT\n".toList
    before6Rules := none
    moveServiceInstalled := false
    trace := [] }

/-- Concrete world: UFW installed and inactive with no SSH rule anywhere. -/
def wC1 : World :=
  { eng := { chains4 := fun _ => none, chains6 := fun _ => none, sets := fun _ => none }
    ufwInstalled := true
    nfPersistInstalled := false
    ufwStatus := some "Status: inactive".toList
    showAdded := some "(None)".toList
    userRules := some "".toList
    user6Rules := none
    beforeRules := some "*filter\nCOMMIT\n".toList
    before6Rules := none
    moveServiceInstalled := false
    trace := [] }

/-- Concrete world: UFW installed and active, input-path chains empty. -/
def wC2active : World :=
  { wC2 with ufwStatus := some "Status: active".toList }

/-- Engine with only the two INPUT chains present. -/
def eInputOnly : Engine :=
  { chains4 := fun n => if n = "INPUT" then some [] else none
    chains6 := fun n => if n = "INPUT" then some [] else none
    sets := fun _ => none }

/-- Fixed resolution oracle for the WHOIS scenarios. -/
def resolveFixed : String → String × String := fun _ => ("AS1", "NET-1")

/-- WHOIS cache holding an entry written at time 0 and an entry written at
time 80000; the file was last modified at 80000. -/
def stC9 : WhoisSt :=
  { entries := [⟨"1.2.3.4", "AS1", "NET1", 0⟩, ⟨"5.6.7.8", "AS2", "NET2", 80000⟩]
    mtime := 80000
    queries := ["1.2.3.4", "5.6.7.8"] }

/-- WHOIS cache with a single entry written at time 5. -/
def stHit : WhoisSt :=
  { entries := [⟨"9.9.9.9", "AS9", "N9", 5⟩], mtime := 5, queries := [] }

/-! # Theorems -/

/-! ## Downloader: deduplication and error behavior -/

theorem dlInv_processLine {st : List String × NetworkList} (h : dlInv st)
    (line : String) : dlInv (processLine st line) := by
  unfold processLine
  dsimp only
  split
  · exact h
  · split
    · exact h
    · rename_i hskip hseen
      intro s
      have hst := h s
      have hht := h (goTrim line)
      by_cases hs : s = goTrim line
      · rw [if_neg hseen] at hht
        simp only [Nat.le_zero, Nat.add_eq_zero] at hht
        cases hht6 : isIPv6Subnet (goTrim line) <;>
          simp [nlAdd, hht6, List.count_append, hs, hht.1, hht.2,
            List.count_singleton', List.mem_append]
      · have hcount : ∀ l : List String, List.count s (l ++ [goTrim line]) = List.count s l := by
          intro l
          have : goTrim line ≠ s := fun hh => hs hh.symm
          simp [List.count_append, List.count_singleton', this]
        have hcont : (st.1 ++ [goTrim line]).contains s = st.1.contains s := by
          simp [List.mem_append, hs]
        cases hht6 : isIPv6Subnet (goTrim line) <;>
          simp only [nlAdd, hht6, Bool.false_eq_true, if_false, if_true, hcount, hcont] <;>
          simpa using hst

theorem dlInv_foldl_lines (lines : List String) :
    ∀ st : List String × NetworkList, dlInv st → dlInv (lines.foldl processLine st) := by
  induction lines with
  | nil => intro st h; exact h
  | cons l ls ih => intro st h; exact ih _ (dlInv_processLine h l)

theorem dlInv_processUrl {st : List String × NetworkList} (h : dlInv st)
    (fetched : Option (List String)) : dlInv (processUrl st fetched) := by
  cases fetched with
  | none => exact h
  | some lines => exact dlInv_foldl_lines lines st h

theorem dlInv_download (fetched : List (Option (List String))) :
    dlInv (fetched.foldl processUrl ([], NewNetworkList)) := by
  have base : dlInv (([] : List String), NewNetworkList) := by
    intro s; simp [NewNetworkList]
  have : ∀ st : List String × NetworkList, dlInv st →
      dlInv (fetched.foldl processUrl st) := by
    induction fetched with
    | nil => intro st h; exact h
    | cons f fs ih => intro st h; exact ih _ (dlInv_processUrl h f)
  exact this _ base

/-- C5: within one `Download` invocation every subnet string is added to
the resulting `NetworkList` at most once, across all URLs of the run:
duplicates already seen (after trimming) are skipped. -/
theorem claim5_download_dedup (fetched : List (Option (List String))) (S : String) :
    ((downloadModel fetched).1.IPv4Subnets.count S) +
      ((downloadModel fetched).1.IPv6Subnets.count S) ≤ 1 := by
  have h := dlInv_download fetched S
  unfold downloadModel
  exact h.trans (by split <;> simp)

/-! ## Engine characterization lemmas -/

theorem upd_self {β : Type} (f : String → Option β) (k : String) (v : Option β) :
    upd f k v k = v := by simp [upd]

theorem upd_ne {β : Type} (f : String → Option β) (k : String) (v : Option β)
    {n : String} (h : n ≠ k) : upd f k v n = f n := by simp [upd, h]

theorem insertRuleAt1_ne (f : String → Option (List RuleSpec)) (ch : String)
    (spec : RuleSpec) {n : String} (h : n ≠ ch) : insertRuleAt1 f ch spec n = f n := by
  unfold insertRuleAt1
  cases f ch <;> simp [upd_ne _ _ _ h]

theorem appendRuleC_ne (f : String → Option (List RuleSpec)) (ch : String)
    (spec : RuleSpec) {n : String} (h : n ≠ ch) : appendRuleC f ch spec n = f n := by
  unfold appendRuleC
  cases f ch <;> simp [upd_ne _ _ _ h]

theorem deleteRuleC_ne (f : String → Option (List RuleSpec)) (ch : String)
    (spec : RuleSpec) {n : String} (h : n ≠ ch) : deleteRuleC f ch spec n = f n := by
  unfold deleteRuleC
  cases f ch <;> simp [upd_ne _ _ _ h]

theorem insertRuleAt1_self (f : String → Option (List RuleSpec)) (ch : String)
    (spec : RuleSpec) {rs : List RuleSpec} (h : f ch = some rs) :
    insertRuleAt1 f ch spec ch = some (spec :: rs) := by
  unfold insertRuleAt1
  rw [h]
  simp [upd_self]

theorem appendRuleC_self (f : String → Option (List RuleSpec)) (ch : String)
    (spec : RuleSpec) {rs : List RuleSpec} (h : f ch = some rs) :
    appendRuleC f ch spec ch = some (rs ++ [spec]) := by
  unfold appendRuleC
  rw [h]
  simp [upd_self]

theorem deleteRuleC_self (f : String → Option (List RuleSpec)) (ch : String)
    (spec : RuleSpec) {rs : List RuleSpec} (h : f ch = some rs) :
    deleteRuleC f ch spec ch = some (rs.erase spec) := by
  unfold deleteRuleC
  rw [h]
  simp [upd_self]

theorem ensureChainFresh_eq (f : String → Option (List RuleSpec)) (ch : String) :
    ensureChainFresh f ch = upd f ch (some []) := by
  unfold ensureChainFresh
  exact ite_self _

theorem mkLogRule_eq (sn pfx : String) :
    mkLogRule sn pfx = ["-m", "set", "--match-set", sn, "src", "-m", "limit",
      "--limit", "10/min", "--limit-burst", "5", "-j", "LOG", "--log-prefix",
      pfx, "--log-level", "4"] := rfl

theorem mkDropRule_eq (sn : String) :
    mkDropRule sn = ["-m", "set", "--match-set", sn, "src", "-j", "DROP"] := rfl

theorem hookRule_eq : hookRule = ["-j", "SCANNERS-BLOCK"] := rfl

theorem mkDropRule_ne_mkLogRule (sn pfx : String) :
    mkDropRule sn ≠ mkLogRule sn pfx := by
  simp [mkLogRule_eq, mkDropRule_eq]

theorem chainName_ne_input : chainName ≠ "INPUT" := by decide

theorem linkStep_ne (link : Bool) (f : String → Option (List RuleSpec))
    {n : String} (h : n ≠ "INPUT") : linkStep link f n = f n := by
  unfold linkStep
  cases link with
  | false => rfl
  | true =>
      by_cases he : ruleExistsIn f "INPUT" hookRule <;>
        simp [he, insertRuleAt1_ne _ _ _ h]

theorem linkStep_input (link : Bool) (f : String → Option (List RuleSpec))
    {rs : List RuleSpec} (h : f "INPUT" = some rs) :
    linkStep link f "INPUT" =
      some (if link && !(rs.contains hookRule) then hookRule :: rs else rs) := by
  unfold linkStep ruleExistsIn
  rw [h]
  cases link with
  | false => simpa using h
  | true =>
      by_cases he : hookRule ∈ rs
      · simpa [he] using h
      · simp [he, insertRuleAt1_self f "INPUT" hookRule h]

theorem logStep_ne (el : Bool) (sn pfx : String)
    (f : String → Option (List RuleSpec)) {n : String} (h : n ≠ chainName) :
    logStep el sn pfx f n = f n := by
  unfold logStep
  cases el with
  | false => rfl
  | true =>
      by_cases he : ruleExistsIn f chainName (mkLogRule sn pfx) <;>
        simp [he, insertRuleAt1_ne _ _ _ h]

theorem logStep_chain_nil (el : Bool) (sn pfx : String)
    (f : String → Option (List RuleSpec)) (h : f chainName = some []) :
    logStep el sn pfx f chainName = some (if el then [mkLogRule sn pfx] else []) := by
  unfold logStep ruleExistsIn
  rw [h]
  cases el with
  | false => simpa using h
  | true => simp [insertRuleAt1_self f chainName _ h]

theorem dropStep_ne (sn : String) (f : String → Option (List RuleSpec))
    {n : String} (h : n ≠ chainName) : dropStep sn f n = f n := by
  unfold dropStep
  by_cases he : ruleExistsIn f chainName (mkDropRule sn) <;>
    simp [he, appendRuleC_ne _ _ _ h]

theorem dropStep_chain (sn : String) (f : String → Option (List RuleSpec))
    {rs : List RuleSpec} (h : f chainName = some rs)
    (hnd : rs.contains (mkDropRule sn) = false) :
    dropStep sn f chainName = some (rs ++ [mkDropRule sn]) := by
  unfold dropStep ruleExistsIn
  rw [h]
  have hnd' : ¬ mkDropRule sn ∈ rs := by simpa using hnd
  simp [hnd', appendRuleC_self f chainName _ h]

theorem sfc_chainName (el link : Bool) (sn pfx : String)
    (f : String → Option (List RuleSpec)) :
    setupFamilyChain el link sn pfx f chainName = some (scannersRules el sn pfx) := by
  unfold setupFamilyChain
  have h0 : ensureChainFresh f chainName chainName = some [] := by
    rw [ensureChainFresh_eq]; exact upd_self _ _ _
  have h1 : linkStep link (ensureChainFresh f chainName) chainName = some [] := by
    rw [linkStep_ne link _ chainName_ne_input]; exact h0
  have h2 : logStep el sn pfx (linkStep link (ensureChainFresh f chainName)) chainName =
      some (if el then [mkLogRule sn pfx] else []) :=
    logStep_chain_nil el sn pfx _ h1
  have hnd : (if el then [mkLogRule sn pfx] else ([] : List RuleSpec)).contains
      (mkDropRule sn) = false := by
    cases el with
    | false => simp
    | true =>
        simp only [if_true, List.contains_cons, List.contains_nil, Bool.or_false]
        exact beq_eq_false_iff_ne.mpr (mkDropRule_ne_mkLogRule sn pfx)
  rw [dropStep_chain sn _ h2 hnd]
  unfold scannersRules
  cases el <;> simp

theorem sfc_input (el link : Bool) (sn pfx : String)
    (f : String → Option (List RuleSpec)) {rs : List RuleSpec}
    (h : f "INPUT" = some rs) :
    setupFamilyChain el link sn pfx f "INPUT" =
      some (if link && !(rs.contains hookRule) then hookRule :: rs else rs) := by
  unfold setupFamilyChain
  have h0 : ensureChainFresh f chainName "INPUT" = some rs := by
    rw [ensureChainFresh_eq, upd_ne _ _ _ (Ne.symm chainName_ne_input)]; exact h
  rw [dropStep_ne sn _ (Ne.symm chainName_ne_input),
    logStep_ne el sn pfx _ (Ne.symm chainName_ne_input)]
  exact linkStep_input link _ h0

theorem sfc_ne (el link : Bool) (sn pfx : String)
    (f : String → Option (List RuleSpec)) {n : String}
    (h1 : n ≠ chainName) (h2 : n ≠ "INPUT") :
    setupFamilyChain el link sn pfx f n = f n := by
  unfold setupFamilyChain
  rw [dropStep_ne sn _ h1, logStep_ne el sn pfx _ h1, linkStep_ne link _ h2,
    ensureChainFresh_eq, upd_ne _ _ _ h1]

/-! ## Address-set characterization lemmas -/

theorem setupSetE_self (sets : String → Option SetInfo) (name fam : String) :
    setupSetE name fam sets name = some (freshSetInfo sets name fam) := by
  unfold setupSetE freshSetInfo
  cases sets name <;> simp [upd_self]

theorem setupSetE_ne (sets : String → Option SetInfo) (name fam : String)
    {n : String} (h : n ≠ name) : setupSetE name fam sets n = sets n := by
  unfold setupSetE
  cases sets name <;> simp [upd_ne _ _ _ h]

theorem ipsetAddE_ne (sets : String → Option SetInfo) (name x : String)
    {n : String} (h : n ≠ name) : ipsetAddE sets name x n = sets n := by
  unfold ipsetAddE
  cases sets name with
  | none => rfl
  | some info =>
      by_cases hm : x ∈ info.members <;> simp [hm, upd_ne _ _ _ h]

theorem fillSetE_ne (subnets : List String) (name : String) {n : String}
    (h : n ≠ name) :
    ∀ sets : String → Option SetInfo, fillSetE sets name subnets n = sets n := by
  induction subnets with
  | nil => intro sets; rfl
  | cons x xs ih =>
      intro sets
      show fillSetE (ipsetAddE sets name x) name xs n = sets n
      rw [ih (ipsetAddE sets name x), ipsetAddE_ne sets name x h]

theorem freshSetInfo_congr {sets1 sets2 : String → Option SetInfo}
    (name fam : String) (h : sets1 name = sets2 name) :
    freshSetInfo sets1 name fam = freshSetInfo sets2 name fam := by
  unfold freshSetInfo
  rw [h]

theorem fillSetE_self (subnets : List String) (name : String) :
    ∀ (sets : String → Option SetInfo) (info : SetInfo), sets name = some info →
      fillSetE sets name subnets name =
        some { info with members := addList info.members subnets } := by
  induction subnets with
  | nil => intro sets info h; simpa [addList] using h
  | cons x xs ih =>
      intro sets info h
      show fillSetE (ipsetAddE sets name x) name xs name = _
      by_cases hm : x ∈ info.members
      · have hadd : ipsetAddE sets name x = sets := by
          unfold ipsetAddE; rw [h]; simp [hm]
        rw [hadd, ih sets info h]
        have : addList info.members (x :: xs) = addList info.members xs := by
          unfold addList; simp [List.foldl_cons, hm]
        rw [this]
      · have hadd : ipsetAddE sets name x =
            upd sets name (some { info with members := info.members ++ [x] }) := by
          unfold ipsetAddE; rw [h]; simp [hm]
        rw [hadd, ih _ { info with members := info.members ++ [x] } (upd_self _ _ _)]
        have : addList info.members (x :: xs) = addList (info.members ++ [x]) xs := by
          unfold addList; simp [List.foldl_cons, hm]
        rw [this]

theorem ipsetV4Name_ne_v6 : ipsetV4Name ≠ ipsetV6Name := by decide

theorem freshSetInfo_members (sets : String → Option SetInfo) (name fam : String) :
    (freshSetInfo sets name fam).members = [] := by
  unfold freshSetInfo
  cases sets name <;> rfl

/-! ## Reconciliation characterization -/

theorem reconcile_sets_v4 (el ui : Bool) (us : Option (List Char))
    (L : NetworkList) (e : Engine) :
    (reconcile el ui us L e).sets ipsetV4Name =
      some { freshSetInfo e.sets ipsetV4Name "inet" with
        members := addList [] L.IPv4Subnets } := by
  unfold reconcile setupChainE
  dsimp only
  unfold fillE setupSetsE
  rw [fillSetE_ne L.IPv6Subnets ipsetV6Name ipsetV4Name_ne_v6]
  have h1 : setupSetE ipsetV6Name "inet6" (setupSetE ipsetV4Name "inet" e.sets)
      ipsetV4Name = some (freshSetInfo e.sets ipsetV4Name "inet") := by
    rw [setupSetE_ne _ _ _ ipsetV4Name_ne_v6, setupSetE_self]
  rw [fillSetE_self L.IPv4Subnets ipsetV4Name _ _ h1, freshSetInfo_members]

theorem reconcile_sets_v6 (el ui : Bool) (us : Option (List Char))
    (L : NetworkList) (e : Engine) :
    (reconcile el ui us L e).sets ipsetV6Name =
      some { freshSetInfo e.sets ipsetV6Name "inet6" with
        members := addList [] L.IPv6Subnets } := by
  unfold reconcile setupChainE
  dsimp only
  unfold fillE setupSetsE
  have h1 : setupSetE ipsetV6Name "inet6" (setupSetE ipsetV4Name "inet" e.sets)
      ipsetV6Name = some (freshSetInfo e.sets ipsetV6Name "inet6") := by
    rw [setupSetE_self]
    exact congrArg some (freshSetInfo_congr ipsetV6Name "inet6"
      (setupSetE_ne _ _ _ (Ne.symm ipsetV4Name_ne_v6)))
  have h2 : fillSetE (setupSetE ipsetV6Name "inet6"
      (setupSetE ipsetV4Name "inet" e.sets)) ipsetV4Name L.IPv4Subnets ipsetV6Name =
      some (freshSetInfo e.sets ipsetV6Name "inet6") := by
    rw [fillSetE_ne L.IPv4Subnets ipsetV4Name (Ne.symm ipsetV4Name_ne_v6)]
    exact h1
  rw [fillSetE_self L.IPv6Subnets ipsetV6Name _ _ h2, freshSetInfo_members]

theorem reconcile_sets_ne (el ui : Bool) (us : Option (List Char))
    (L : NetworkList) (e : Engine) {n : String}
    (h4 : n ≠ ipsetV4Name) (h6 : n ≠ ipsetV6Name) :
    (reconcile el ui us L e).sets n = e.sets n := by
  unfold reconcile setupChainE
  dsimp only
  unfold fillE setupSetsE
  rw [fillSetE_ne L.IPv6Subnets ipsetV6Name h6, fillSetE_ne L.IPv4Subnets ipsetV4Name h4,
    setupSetE_ne _ _ _ h6, setupSetE_ne _ _ _ h4]

theorem reconcile_chains4 (el ui : Bool) (us : Option (List Char))
    (L : NetworkList) (e : Engine) :
    (reconcile el ui us L e).chains4 =
      setupFamilyChain el (!(isUFWActiveP ui us)) ipsetV4Name "ANTISCAN-v4: " e.chains4 := rfl

theorem reconcile_chains6 (el ui : Bool) (us : Option (List Char))
    (L : NetworkList) (e : Engine) :
    (reconcile el ui us L e).chains6 =
      setupFamilyChain el (!(isUFWActiveP ui us)) ipsetV6Name "ANTISCAN-v6: " e.chains6 := rfl

/-! ## Idempotence of reconciliation (C3) -/

theorem engineEqOf {a b : Engine} (h1 : a.chains4 = b.chains4)
    (h2 : a.chains6 = b.chains6) (h3 : a.sets = b.sets) : a = b := by
  cases a; cases b; simp_all

theorem setInfoUpdMembersSelf (i : SetInfo) : { i with members := i.members } = i := rfl

theorem freshSetInfo_of_some {sets : String → Option SetInfo} {name : String}
    {i : SetInfo} (fam : String) (h : sets name = some i) :
    freshSetInfo sets name fam = { i with members := [] } := by
  unfold freshSetInfo
  rw [h]

theorem sfc_idem (el link : Bool) (sn pfx : String)
    (f : String → Option (List RuleSpec)) {rs : List RuleSpec}
    (h : f "INPUT" = some rs) (n : String) :
    setupFamilyChain el link sn pfx (setupFamilyChain el link sn pfx f) n =
      setupFamilyChain el link sn pfx f n := by
  by_cases hn1 : n = chainName
  · subst hn1
    rw [sfc_chainName, sfc_chainName]
  · by_cases hn2 : n = "INPUT"
    · subst hn2
      have h1 := sfc_input el link sn pfx f h
      rw [sfc_input el link sn pfx _ h1, sfc_input el link sn pfx f h]
      congr 1
      cases link with
      | false => simp
      | true =>
          by_cases hc : hookRule ∈ rs
          · simp [hc]
          · simp [hc]
    · rw [sfc_ne el link sn pfx _ hn1 hn2]

/-- C3: running the full reconciliation (ipset `Setup` + `Fill`, iptables
`SetupChain`) twice in a row with the same subnet list produces engine state
identical to running it once — every ensure-operation checks existence
before mutating, so the second run neither duplicates chains, hook rules,
LOG/DROP rules, nor changes set membership. The INPUT chain of each family
is assumed to exist (it is an iptables built-in). -/
theorem claim3_reconcile_idempotent (el ui : Bool) (us : Option (List Char))
    (L : NetworkList) (e : Engine)
    (h4 : (e.chains4 "INPUT").isSome = true)
    (h6 : (e.chains6 "INPUT").isSome = true) :
    reconcile el ui us L (reconcile el ui us L e) = reconcile el ui us L e := by
  obtain ⟨rs4, hrs4⟩ := Option.isSome_iff_exists.mp h4
  obtain ⟨rs6, hrs6⟩ := Option.isSome_iff_exists.mp h6
  apply engineEqOf
  · funext n
    rw [reconcile_chains4, reconcile_chains4]
    exact sfc_idem el _ _ _ e.chains4 hrs4 n
  · funext n
    rw [reconcile_chains6, reconcile_chains6]
    exact sfc_idem el _ _ _ e.chains6 hrs6 n
  · funext n
    by_cases hv4 : n = ipsetV4Name
    · subst hv4
      have hfresh : freshSetInfo (reconcile el ui us L e).sets ipsetV4Name "inet" =
          freshSetInfo e.sets ipsetV4Name "inet" := by
        rw [freshSetInfo_of_some "inet" (reconcile_sets_v4 el ui us L e)]
        show { freshSetInfo e.sets ipsetV4Name "inet" with members := ([] : List String) } = _
        rw [← freshSetInfo_members e.sets ipsetV4Name "inet"]
      rw [reconcile_sets_v4, reconcile_sets_v4, hfresh]
    · by_cases hv6 : n = ipsetV6Name
      · subst hv6
        have hfresh : freshSetInfo (reconcile el ui us L e).sets ipsetV6Name "inet6" =
            freshSetInfo e.sets ipsetV6Name "inet6" := by
          rw [freshSetInfo_of_some "inet6" (reconcile_sets_v6 el ui us L e)]
          show { freshSetInfo e.sets ipsetV6Name "inet6" with members := ([] : List String) } = _
          rw [← freshSetInfo_members e.sets ipsetV6Name "inet6"]
        rw [reconcile_sets_v6, reconcile_sets_v6, hfresh]
      · rw [reconcile_sets_ne el ui us L _ hv4 hv6]

/-- Witness for C3 at a concrete engine. -/
theorem claim3_witness :
    (eInputOnly.chains4 "INPUT").isSome = true ∧
    (eInputOnly.chains6 "INPUT").isSome = true ∧
    reconcile false false none NewNetworkList
        (reconcile false false none NewNetworkList eInputOnly) =
      reconcile false false none NewNetworkList eInputOnly :=
  ⟨by decide, by decide,
    claim3_reconcile_idempotent false false none NewNetworkList eInputOnly
      (by decide) (by decide)⟩

/-! ## End-to-end example (C6) -/

/-- C6: the example source list yields exactly the IPv4 set
`{"203.0.113.0/24"}` and IPv6 set `{"2001:db8::/32"}` (blank lines and
`#` comments ignored, family decided by the presence of `:`); after
reconciliation each family's block chain ends with the DROP rule
referencing that family's set; with logging disabled the chains hold no
LOG rule at all. -/
theorem claim6_example_end_to_end (ui : Bool) (us : Option (List Char)) (e : Engine) :
    (downloadModel [some ["203.0.113.0/24", "# comment", "", "2001:db8::/32"]]).1 =
      ⟨["203.0.113.0/24"], ["2001:db8::/32"]⟩ ∧
    (∀ el : Bool,
      (reconcile el ui us ⟨["203.0.113.0/24"], ["2001:db8::/32"]⟩ e).chains4 chainName =
        some (scannersRules el ipsetV4Name "ANTISCAN-v4: ") ∧
      (reconcile el ui us ⟨["203.0.113.0/24"], ["2001:db8::/32"]⟩ e).chains6 chainName =
        some (scannersRules el ipsetV6Name "ANTISCAN-v6: ")) ∧
    (∀ el : Bool,
      (scannersRules el ipsetV4Name "ANTISCAN-v4: ").getLast? =
        some (mkDropRule ipsetV4Name) ∧
      (scannersRules el ipsetV6Name "ANTISCAN-v6: ").getLast? =
        some (mkDropRule ipsetV6Name)) ∧
    mkDropRule ipsetV4Name = ["-m", "set", "--match-set", "SCANNERS-BLOCK-V4", "src", "-j", "DROP"] ∧
    mkDropRule ipsetV6Name = ["-m", "set", "--match-set", "SCANNERS-BLOCK-V6", "src", "-j", "DROP"] ∧
    scannersRules false ipsetV4Name "ANTISCAN-v4: " = [mkDropRule ipsetV4Name] ∧
    scannersRules false ipsetV6Name "ANTISCAN-v6: " = [mkDropRule ipsetV6Name] ∧
    ((scannersRules false ipsetV4Name "ANTISCAN-v4: ").all
      (fun r => !(r.contains "LOG"))) = true ∧
    ((scannersRules false ipsetV6Name "ANTISCAN-v6: ").all
      (fun r => !(r.contains "LOG"))) = true := by
  refine ⟨by decide, ?_, ?_, by decide, by decide, by decide, by decide, by decide, by decide⟩
  · intro el
    exact ⟨by rw [reconcile_chains4, sfc_chainName], by rw [reconcile_chains6, sfc_chainName]⟩
  · intro el
    constructor <;> { unfold scannersRules; exact List.getLast?_concat _ }

/-! ## Download error behavior (C10) -/

/-- C10: `Download` always returns a `nil` error — a URL whose fetch fails
is skipped and contributes nothing; when every URL fails the result is an
empty `NetworkList` with no error, so the caller's fatal-on-download-error
branch can never fire and the subsequent reconciliation flushes both block
sets to empty membership. -/
theorem claim10_download_never_errors :
    (∀ fetched : List (Option (List String)), (downloadModel fetched).2 = none) ∧
    (∀ st : List String × NetworkList, processUrl st none = st) ∧
    (∀ n : Nat, (downloadModel (List.replicate n none)).1 = NewNetworkList) ∧
    (∀ (el ui : Bool) (us : Option (List Char)) (e : Engine),
      ((reconcile el ui us NewNetworkList e).sets ipsetV4Name).map SetInfo.members =
        some [] ∧
      ((reconcile el ui us NewNetworkList e).sets ipsetV6Name).map SetInfo.members =
        some []) := by
  refine ⟨fun _ => rfl, fun _ => rfl, ?_, ?_⟩
  · intro n
    have hfold : ∀ st : List String × NetworkList,
        (List.replicate n none).foldl processUrl st = st := by
      induction n with
      | zero => intro st; rfl
      | succ m ih => intro st; rw [List.replicate_succ, List.foldl_cons]; exact ih st
    unfold downloadModel
    rw [hfold]
  · intro el ui us e
    rw [reconcile_sets_v4, reconcile_sets_v6]
    exact ⟨rfl, rfl⟩

/-! ## RuleBuilder token ordering (C7) -/

/-- C7 counterexample: the rate-limited LOG rule the program builds has the
`-j LOG` target pair followed by the LOG option tokens, so `-j <target>` is
not the last element of that token sequence — the claim fails on this spec. -/
theorem claim7_counterexample :
    endsWithJump logRuleV4 = false ∧
    logRuleV4.contains "-j" = true ∧
    logRuleV4.getLast? = some "4" := by decide

/-- C7 amended: in every rule spec the program builds, each `-m <module>`
token pair is immediately followed by that module's option tokens; the
target pair `-j <target>` is the final two tokens of the DROP and
jump-to-chain rules, while in the LOG rules `-j LOG` is followed exactly by
the LOG target's own option tokens (`--log-prefix`, `--log-level`). -/
theorem claim7_token_order :
    logRuleV4 = ["-m", "set", "--match-set", "SCANNERS-BLOCK-V4", "src", "-m",
      "limit", "--limit", "10/min", "--limit-burst", "5", "-j", "LOG",
      "--log-prefix", "ANTISCAN-v4: ", "--log-level", "4"] ∧
    logRuleV6 = ["-m", "set", "--match-set", "SCANNERS-BLOCK-V6", "src", "-m",
      "limit", "--limit", "10/min", "--limit-burst", "5", "-j", "LOG",
      "--log-prefix", "ANTISCAN-v6: ", "--log-level", "4"] ∧
    dropRuleV4 = ["-m", "set", "--match-set", "SCANNERS-BLOCK-V4", "src", "-j", "DROP"] ∧
    dropRuleV6 = ["-m", "set", "--match-set", "SCANNERS-BLOCK-V6", "src", "-j", "DROP"] ∧
    hookRule = ["-j", "SCANNERS-BLOCK"] ∧
    endsWithJump dropRuleV4 = true ∧
    endsWithJump dropRuleV6 = true ∧
    endsWithJump hookRule = true ∧
    logRuleV4.drop 11 = ["-j", "LOG", "--log-prefix", "ANTISCAN-v4: ", "--log-level", "4"] ∧
    logRuleV6.drop 11 = ["-j", "LOG", "--log-prefix", "ANTISCAN-v6: ", "--log-level", "4"] := by
  decide

/-! ## Aggregate merge (C8) -/

theorem insertByCountDesc_mem (r : AggRow) (l : List AggRow) :
    ∀ y ∈ insertByCountDesc r l, y = r ∨ y ∈ l := by
  induction l with
  | nil => intro y hy; simp [insertByCountDesc] at hy; exact Or.inl hy
  | cons x xs ih =>
      intro y hy
      unfold insertByCountDesc at hy
      by_cases hc : x.count ≤ r.count
      · simp [hc] at hy
        rcases hy with hy | hy | hy
        · exact Or.inl hy
        · exact Or.inr (by simp [hy])
        · exact Or.inr (by simp [hy])
      · simp [hc] at hy
        rcases hy with hy | hy
        · exact Or.inr (by simp [hy])
        · rcases ih y hy with h | h
          · exact Or.inl h
          · exact Or.inr (by simp [h])

theorem insertByCountDesc_pairwise (r : AggRow) (l : List AggRow)
    (h : l.Pairwise (fun x y => y.count ≤ x.count)) :
    (insertByCountDesc r l).Pairwise (fun x y => y.count ≤ x.count) := by
  induction l with
  | nil => simp [insertByCountDesc]
  | cons x xs ih =>
      unfold insertByCountDesc
      rcases List.pairwise_cons.mp h with ⟨hx, hxs⟩
      by_cases hc : x.count ≤ r.count
      · simp only [hc, if_true]
        refine List.pairwise_cons.mpr ⟨?_, h⟩
        intro y hy
        rcases List.mem_cons.mp hy with rfl | hy
        · exact hc
        · exact le_trans (hx y hy) hc
      · simp only [hc, if_false]
        refine List.pairwise_cons.mpr ⟨?_, ih hxs⟩
        intro y hy
        rcases insertByCountDesc_mem r xs y hy with rfl | hy
        · exact le_of_not_le hc
        · exact hx y hy

theorem sortByCountDesc_pairwise (rows : List AggRow) :
    (sortByCountDesc rows).Pairwise (fun x y => y.count ≤ x.count) := by
  unfold sortByCountDesc
  induction rows with
  | nil => simp
  | cons r rs ih => exact insertByCountDesc_pairwise r _ ih

/-- C8: the aggregate merge sums counts per `(family, address)` key and
overwrites last-seen, ASN and netname with the batch row's values (so the
example batch count 5 into existing count 10 with ASN `AS1` yields 15 and,
the batch's resolution being the cached `AS1`, the ASN stays `AS1`); the
merged table is re-sorted descending by count and persisted by writing a
temporary file that is renamed over the output. -/
theorem claim8_aggregate_merge :
    (mergeAll [⟨"v4", "1.2.3.4", "AS1", "EXAMPLE-NET", 10, "t1"⟩,
        ⟨"v4", "1.2.3.4", "AS1", "EXAMPLE-NET", 5, "t2"⟩] =
      [⟨"v4", "1.2.3.4", "AS1", "EXAMPLE-NET", 15, "t2"⟩]) ∧
    (∀ t a asn0 nn0 c0 s0 asn1 nn1 c1 s1,
      mergeAll [⟨t, a, asn0, nn0, c0, s0⟩, ⟨t, a, asn1, nn1, c1, s1⟩] =
        [⟨t, a, asn1, nn1, c0 + c1, s1⟩]) ∧
    (∀ rows : List AggRow,
      (sortByCountDesc rows).Pairwise (fun x y => y.count ≤ x.count)) ∧
    (∀ (fs : String → Option (List AggRow)) (r : AggRow) (rest : List AggRow),
      runMergeStep fs (r :: rest) outputCsvPath =
        some (aggregateMerged ((fs outputCsvPath).getD []) (r :: rest)) ∧
      runMergeStep fs (r :: rest) (outputCsvPath ++ ".new") = none) := by
  refine ⟨by decide, ?_, sortByCountDesc_pairwise, ?_⟩
  · intro t a asn0 nn0 c0 s0 asn1 nn1 c1 s1
    simp [mergeAll, mergeInto, rowKey]
  · intro fs r rest
    constructor
    · unfold runMergeStep
      simp [persistAtomic]
    · unfold runMergeStep
      simp only [List.isEmpty_cons, Bool.false_eq_true, if_false]
      unfold persistAtomic
      rw [if_neg (by decide), if_pos rfl]

/-! ## Occurrence counting for the section injection (C4) -/

theorem isPrefixOf_newline_append (pat a b : List Char)
    (hnl : pat.contains '\n' = false) :
    pat.isPrefixOf (a ++ '\n' :: b) = pat.isPrefixOf a := by
  induction a generalizing pat with
  | nil =>
      cases pat with
      | nil => simp
      | cons p pt =>
          rw [List.contains_cons] at hnl
          rcases Bool.or_eq_false_iff.mp hnl with ⟨h1, _⟩
          have hp : (p == '\n') = false :=
            beq_eq_false_iff_ne.mpr (Ne.symm (beq_eq_false_iff_ne.mp h1))
          simp [List.isPrefixOf_cons₂, hp]
  | cons x a' ih =>
      cases pat with
      | nil => simp
      | cons p pt =>
          have hpt : pt.contains '\n' = false := by
            rw [List.contains_cons] at hnl
            exact (Bool.or_eq_false_iff.mp hnl).2
          rw [List.cons_append, List.isPrefixOf_cons₂, List.isPrefixOf_cons₂,
            ih pt hpt]

theorem countOcc_newline_append (pat a b : List Char)
    (hnl : pat.contains '\n' = false) :
    countOcc pat (a ++ '\n' :: b) = countOcc pat a + countOcc pat ('\n' :: b) := by
  induction a with
  | nil => simp [countOcc]
  | cons x a' ih =>
      have hpre : pat.isPrefixOf (x :: (a' ++ '\n' :: b)) = pat.isPrefixOf (x :: a') := by
        have := isPrefixOf_newline_append pat (x :: a') b hnl
        simpa using this
      calc countOcc pat ((x :: a') ++ '\n' :: b)
          = (if pat.isPrefixOf (x :: (a' ++ '\n' :: b)) then 1 else 0) +
              countOcc pat (a' ++ '\n' :: b) := rfl
        _ = (if pat.isPrefixOf (x :: a') then 1 else 0) +
              (countOcc pat a' + countOcc pat ('\n' :: b)) := by rw [hpre, ih]
        _ = ((if pat.isPrefixOf (x :: a') then 1 else 0) + countOcc pat a') +
              countOcc pat ('\n' :: b) := by omega
        _ = countOcc pat (x :: a') + countOcc pat ('\n' :: b) := rfl

theorem countOcc_zero_of_not_sub (pat s : List Char) (h : isSubOf pat s = false) :
    countOcc pat s = 0 := by
  induction s with
  | nil => rfl
  | cons c rest ih =>
      unfold isSubOf at h
      rcases Bool.or_eq_false_iff.mp h with ⟨h1, h2⟩
      simp only [countOcc, h1, Bool.false_eq_true, if_false, Nat.zero_add]
      exact ih h2

theorem isSubOf_of_countOcc_ne (pat s : List Char) (h : countOcc pat s ≠ 0) :
    isSubOf pat s = true := by
  cases hs : isSubOf pat s with
  | false => exact absurd (countOcc_zero_of_not_sub pat s hs) h
  | true => rfl

theorem countOcc_le_append_right (pat a b : List Char) :
    countOcc pat b ≤ countOcc pat (a ++ b) := by
  induction a with
  | nil => simp
  | cons x a' ih =>
      show countOcc pat b ≤ countOcc pat (x :: (a' ++ b))
      simp only [countOcc]
      exact le_trans ih (Nat.le_add_left _ _)

theorem isPrefixOf_append_of (pat : List Char) (x b : List Char)
    (h : pat.isPrefixOf x = true) : pat.isPrefixOf (x ++ b) = true := by
  induction pat generalizing x with
  | nil => simp
  | cons p pt ih =>
      cases x with
      | nil => simp at h
      | cons y x' =>
          rw [List.isPrefixOf_cons₂, Bool.and_eq_true] at h
          rw [List.cons_append, List.isPrefixOf_cons₂, h.1, ih x' h.2]
          rfl

theorem countOcc_le_append_left (pat a b : List Char) :
    countOcc pat a ≤ countOcc pat (a ++ b) := by
  induction a with
  | nil => simp [countOcc]
  | cons x a' ih =>
      show countOcc pat (x :: a') ≤ countOcc pat (x :: (a' ++ b))
      simp only [countOcc]
      have hite : (if pat.isPrefixOf (x :: a') then 1 else 0) ≤
          (if pat.isPrefixOf (x :: (a' ++ b)) then 1 else 0) := by
        cases hp : pat.isPrefixOf (x :: a') with
        | false => simp [hp]
        | true =>
            have := isPrefixOf_append_of pat (x :: a') b hp
            rw [List.cons_append] at this
            simp [this]
      omega

theorem countOcc_splice (pat pre suf mid : List Char) (hne : pat ≠ [])
    (hnl : pat.contains '\n' = false)
    (hpre : countOcc pat pre = 0) (hsuf : countOcc pat suf = 0)
    (hmid : countOcc pat ('\n' :: mid ++ ['\n']) = 1) :
    countOcc pat (pre ++ ('\n' :: mid ++ ['\n']) ++ suf) = 1 := by
  obtain ⟨p, pt, rfl⟩ : ∃ p pt, pat = p :: pt := by
    cases pat with
    | nil => exact absurd rfl hne
    | cons p pt => exact ⟨p, pt, rfl⟩
  have hp : (p == '\n') = false := by
    rw [List.contains_cons] at hnl
    exact beq_eq_false_iff_ne.mpr
      (Ne.symm (beq_eq_false_iff_ne.mp (Bool.or_eq_false_iff.mp hnl).1))
  have hup : ∀ x : List Char, countOcc (p :: pt) ('\n' :: x) = countOcc (p :: pt) x := by
    intro x
    simp only [countOcc, List.isPrefixOf_cons₂, hp, Bool.false_and,
      Bool.false_eq_true, if_false, Nat.zero_add]
  have hassoc : pre ++ ('\n' :: mid ++ ['\n']) ++ suf =
      pre ++ '\n' :: (mid ++ '\n' :: suf) := by
    simp
  rw [hassoc, countOcc_newline_append _ _ _ hnl, hup,
    countOcc_newline_append _ _ _ hnl, hup, hpre, hsuf]
  have hm : countOcc (p :: pt) mid = 1 := by
    rw [countOcc_newline_append _ _ _ hnl, hup, hup] at hmid
    simpa [countOcc] using hmid
  omega

set_option maxRecDepth 40000 in
/-- C4: running the persisted-file section injection twice on the same
competing-manager rule file (marker-free, containing a `COMMIT` sentinel)
yields exactly one marker-delimited SCANNERS-BLOCK section, and the second
run detects the idempotency marker and leaves the content unchanged. -/
theorem claim4_injection_idempotent (el : Bool) (c : List Char)
    (hm : containsSub c markerChars = false)
    (hci : (lastCommitIdx c).isSome = true) :
    ∃ c', injectV4 el c = some c' ∧ countOcc markerChars c' = 1 ∧
      injectV4 el c' = some c' := by
  obtain ⟨i, hi⟩ := Option.isSome_iff_exists.mp hci
  have hmarker_ne : markerChars ≠ [] := by decide
  have hmarker_nl : markerChars.contains '\n' = false := by decide
  have hrules : ∃ mid, rulesTextV4 el = '\n' :: mid ++ ['\n'] ∧
      countOcc markerChars ('\n' :: mid ++ ['\n']) = 1 := by
    cases el
    · exact ⟨(rulesTextV4 false).tail.dropLast, by decide, by decide⟩
    · exact ⟨(rulesTextV4 true).tail.dropLast, by decide, by decide⟩
  obtain ⟨mid, hmid_eq, hmid_cnt⟩ := hrules
  have hc0 : countOcc markerChars c = 0 := countOcc_zero_of_not_sub _ _ hm
  have hsplit : c.take i ++ c.drop i = c := List.take_append_drop i c
  have hpre : countOcc markerChars (c.take i) = 0 := by
    have := countOcc_le_append_left markerChars (c.take i) (c.drop i)
    rw [hsplit] at this
    omega
  have hsuf : countOcc markerChars (c.drop i) = 0 := by
    have := countOcc_le_append_right markerChars (c.take i) (c.drop i)
    rw [hsplit] at this
    omega
  have hcnt : countOcc markerChars (c.take i ++ rulesTextV4 el ++ c.drop i) = 1 := by
    rw [hmid_eq]
    exact countOcc_splice markerChars (c.take i) (c.drop i) mid hmarker_ne
      hmarker_nl hpre hsuf hmid_cnt
  refine ⟨c.take i ++ rulesTextV4 el ++ c.drop i, ?_, hcnt, ?_⟩
  · unfold injectV4 injectRules
    rw [hm, hi]
    simp
  · have hsub : containsSub (c.take i ++ rulesTextV4 el ++ c.drop i) markerChars = true :=
      isSubOf_of_countOcc_ne _ _ (by rw [hcnt]; exact one_ne_zero)
    unfold injectV4 injectRules
    rw [hsub]
    simp

set_option maxRecDepth 40000 in
/-- Witness for C4 on a minimal `before.rules` file. -/
theorem claim4_witness :
    containsSub "*filter\nCOMMIT\n".toList markerChars = false ∧
    (lastCommitIdx "*filter\nCOMMIT\n".toList).isSome = true ∧
    ∃ c', injectV4 false "*filter\nCOMMIT\n".toList = some c' ∧
      countOcc markerChars c' = 1 ∧ injectV4 false c' = some c' :=
  ⟨by decide, by decide,
    claim4_injection_idempotent false "*filter\nCOMMIT\n".toList (by decide) (by decide)⟩

/-! ## WHOIS cache staleness (C9) -/

/-- C9 counterexample: the script's staleness handling is file-level, not
entry-level. At cycle time 160000 the cache file was last written at 80000
(under `find -mtime +1`'s deletion threshold), so it is kept — yet the
entry for `1.2.3.4` was written at time 0, more than one day earlier. The
lookup still returns the cached pair and performs no new external query,
contradicting the claim that entries older than one day are treated as
absent and re-resolved. -/
theorem claim9_counterexample :
    stC9.entries.head? = some ⟨"1.2.3.4", "AS1", "NET1", 0⟩ ∧
    oneDaySec < 160000 - 0 ∧
    (whoisCycleStart 160000 stC9).entries = stC9.entries ∧
    (getIpInfo 160000 resolveFixed (whoisCycleStart 160000 stC9) "1.2.3.4").1 =
      ("AS1", "NET1") ∧
    (getIpInfo 160000 resolveFixed (whoisCycleStart 160000 stC9) "1.2.3.4").2.queries =
      stC9.queries := by
  decide

/-- C9 amended: a lookup that hits the cache returns the cached
`(ASN, netname)` pair and performs no new external query, leaving the
cache state unchanged; staleness is per cache file, not per entry — only
when the cache file's age truncated to whole days exceeds one
(`find -mtime +1`, i.e. the last write is at least two full days before
the cycle start) is the whole cache discarded, after which a lookup
re-resolves externally. -/
theorem claim9_cache_amended :
    (∀ (now : Nat) (resolve : String → String × String) (st : WhoisSt)
        (ip : String) (e : WhoisEntry),
      whoisCacheLookup st.entries ip = some e →
        (getIpInfo now resolve st ip).1 = (e.asn, e.netname) ∧
        (getIpInfo now resolve st ip).2 = st) ∧
    (∀ (now : Nat) (resolve : String → String × String) (st : WhoisSt) (ip : String),
      (now - st.mtime) / oneDaySec > 1 →
        (whoisCycleStart now st).entries = [] ∧
        (getIpInfo now resolve (whoisCycleStart now st) ip).2.queries =
          st.queries ++ [ip]) := by
  constructor
  · intro now resolve st ip e hhit
    unfold getIpInfo
    rw [hhit]
    exact ⟨rfl, rfl⟩
  · intro now resolve st ip hstale
    have hclear : (whoisCycleStart now st).entries = [] := by
      unfold whoisCycleStart
      simp [hstale]
    refine ⟨hclear, ?_⟩
    unfold getIpInfo
    rw [show whoisCacheLookup (whoisCycleStart now st).entries ip = none by
      rw [hclear]; rfl]
    have hq : (whoisCycleStart now st).queries = st.queries := by
      unfold whoisCycleStart
      by_cases hs : (now - st.mtime) / oneDaySec > 1 <;> simp [hs]
    simp [hq]

/-- Witness for C9 on a concrete cache state (cycle at 200000: the file
written at 5 is more than two full days old, so the cache is discarded). -/
theorem claim9_witness :
    ((getIpInfo 10 resolveFixed stHit "9.9.9.9").1 = ("AS9", "N9") ∧
      (getIpInfo 10 resolveFixed stHit "9.9.9.9").2 = stHit) ∧
    ((whoisCycleStart 200000 stHit).entries = [] ∧
      (getIpInfo 200000 resolveFixed (whoisCycleStart 200000 stHit) "9.9.9.9").2.queries =
        stHit.queries ++ ["9.9.9.9"]) :=
  ⟨claim9_cache_amended.1 10 resolveFixed stHit "9.9.9.9" ⟨"9.9.9.9", "AS9", "N9", 5⟩
      (by decide),
    claim9_cache_amended.2 200000 resolveFixed stHit "9.9.9.9" (by decide)⟩

/-! ## SSH safety gate (C1) -/

/-- C1: when UFW is installed but inactive and none of the checked sources
(`user.rules`, `user6.rules`, the live `ufw show added` view) contains an
SSH-permitting rule, `Save`/`saveWithUFW` returns the fatal lockout error
and no state-toggling call (`ufw --force disable`/`ufw --force enable`)
appears in the run's command trace — UFW is never transitioned from
inactive to active without `ssh-rule-present`. -/
theorem claim1_safety_gate (el : Bool) (w : World)
    (hui : w.ufwInstalled = true)
    (hact : isUFWActiveP w.ufwInstalled w.ufwStatus = false)
    (hssh : (fileHasSSH w.userRules || fileHasSSH w.user6Rules) = false)
    (hsa : showAddedHasSSH w.showAdded = false)
    (htr : w.trace = []) :
    (Save el w).1 = Except.error
      "SSH not allowed in UFW - installation aborted to prevent server lockout" ∧
    ∀ c ∈ (Save el w).2.trace, isToggleCmd c = false := by
  have hact' : isUFWActiveP true w.ufwStatus = false := hui ▸ hact
  unfold Save saveWithUFW gateStep
  simp only [hui, if_true]
  simp [hact', hssh, hsa, htr, isToggleCmd]

/-- Witness for C1 on a concrete world with UFW installed, inactive, and
no SSH rule in any checked source. -/
theorem claim1_witness :
    (wC1.ufwInstalled = true ∧
      isUFWActiveP wC1.ufwInstalled wC1.ufwStatus = false ∧
      (fileHasSSH wC1.userRules || fileHasSSH wC1.user6Rules) = false ∧
      showAddedHasSSH wC1.showAdded = false ∧ wC1.trace = []) ∧
    (Save false wC1).1 = Except.error
      "SSH not allowed in UFW - installation aborted to prevent server lockout" ∧
    ∀ c ∈ (Save false wC1).2.trace, isToggleCmd c = false :=
  ⟨⟨rfl, by decide, by decide, by decide, rfl⟩,
    claim1_safety_gate false wC1 rfl (by decide) (by decide) (by decide) rfl⟩

/-! ## Hook uniqueness in the evaluated input path (C2) -/

theorem ufwBefore_ne_chainName : "ufw-before-input" ≠ chainName := by decide

theorem ufwBefore_ne_input : "ufw-before-input" ≠ "INPUT" := by decide

theorem ufw6Before_ne_chainName : "ufw6-before-input" ≠ chainName := by decide

theorem ufw6Before_ne_input : "ufw6-before-input" ≠ "INPUT" := by decide

theorem input_ne_ufwBefore : "INPUT" ≠ "ufw-before-input" := by decide

theorem input_ne_ufw6Before : "INPUT" ≠ "ufw6-before-input" := by decide

theorem sfc_input_none (el link : Bool) (sn pfx : String)
    (f : String → Option (List RuleSpec)) (h : f "INPUT" = none) :
    setupFamilyChain el link sn pfx f "INPUT" = none := by
  unfold setupFamilyChain
  have h0 : ensureChainFresh f chainName "INPUT" = none := by
    rw [ensureChainFresh_eq, upd_ne _ _ _ (Ne.symm chainName_ne_input)]
    exact h
  rw [dropStep_ne sn _ (Ne.symm chainName_ne_input),
    logStep_ne el sn pfx _ (Ne.symm chainName_ne_input)]
  cases link with
  | false => exact h0
  | true =>
      unfold linkStep ruleExistsIn insertRuleAt1
      rw [h0]
      simp [h0]

theorem sfc_input_count (el link : Bool) (sn pfx : String)
    (f : String → Option (List RuleSpec))
    (h : countHookIn (f "INPUT") = 0) :
    countHookIn (setupFamilyChain el link sn pfx f "INPUT") ≤ 1 := by
  cases hIn : f "INPUT" with
  | none =>
      rw [sfc_input_none el link sn pfx f hIn]
      exact Nat.zero_le 1
  | some rs =>
      rw [sfc_input el link sn pfx f hIn]
      have hrs : rs.count hookRule = 0 := by
        rw [hIn] at h
        simpa [countHookIn] using h
      cases hite : (link && !(rs.contains hookRule)) <;>
        simp [countHookIn, hite, List.count_cons, hrs]

theorem relink_count (f : String → Option (List RuleSpec)) (ch : String)
    (h : countHookIn (f ch) = 0) :
    countHookIn ((insertRuleAt1 (deleteRuleC f ch hookRule) ch hookRule) ch) ≤ 1 := by
  cases hc : f ch with
  | none =>
      have hdel : deleteRuleC f ch hookRule = f := by
        unfold deleteRuleC
        rw [hc]
      have hins : insertRuleAt1 f ch hookRule = f := by
        unfold insertRuleAt1
        rw [hc]
      rw [hdel, hins, hc]
      exact Nat.zero_le 1
  | some rs =>
      have hrs : rs.count hookRule = 0 := by
        rw [hc] at h
        simpa [countHookIn] using h
      have hdel : deleteRuleC f ch hookRule ch = some (rs.erase hookRule) :=
        deleteRuleC_self f ch hookRule hc
      rw [insertRuleAt1_self _ ch hookRule hdel]
      have herase : (rs.erase hookRule).count hookRule = 0 := by
        have hne : hookRule ∉ rs := List.count_eq_zero.mp hrs
        rw [List.erase_of_not_mem hne]
        exact hrs
      simp [countHookIn, List.count_cons, herase]

theorem relink_other (f : String → Option (List RuleSpec)) (ch : String)
    {n : String} (h : n ≠ ch) :
    (insertRuleAt1 (deleteRuleC f ch hookRule) ch hookRule) n = f n := by
  rw [insertRuleAt1_ne _ _ _ h, deleteRuleC_ne _ _ _ h]

theorem gateStep_eng (w : World) : (gateStep w).2.eng = w.eng := by
  unfold gateStep
  dsimp only
  split
  · split
    · rfl
    · rfl
  · rfl

theorem restStep_chains4 (el : Bool) (w : World) :
    (restStep el w).2.eng.chains4 = w.eng.chains4 ∨
    (restStep el w).2.eng.chains4 =
      insertRuleAt1 (deleteRuleC w.eng.chains4 "ufw-before-input" hookRule)
        "ufw-before-input" hookRule := by
  unfold restStep
  split
  · exact Or.inl rfl
  · split
    · exact Or.inl rfl
    · dsimp only
      split
      · exact Or.inr rfl
      · split
        · exact Or.inr rfl
        · exact Or.inr rfl

theorem restStep_chains6 (el : Bool) (w : World) :
    (restStep el w).2.eng.chains6 = w.eng.chains6 ∨
    (restStep el w).2.eng.chains6 =
      insertRuleAt1 (deleteRuleC w.eng.chains6 "ufw6-before-input" hookRule)
        "ufw6-before-input" hookRule := by
  unfold restStep
  split
  · exact Or.inl rfl
  · split
    · exact Or.inl rfl
    · dsimp only
      split
      · exact Or.inr rfl
      · split
        · exact Or.inr rfl
        · exact Or.inr rfl

theorem saveWithUFW_chains4 (el : Bool) (w : World) :
    (saveWithUFW el w).2.eng.chains4 = w.eng.chains4 ∨
    (saveWithUFW el w).2.eng.chains4 =
      insertRuleAt1 (deleteRuleC w.eng.chains4 "ufw-before-input" hookRule)
        "ufw-before-input" hookRule := by
  unfold saveWithUFW
  dsimp only
  split
  · left
    show (gateStep _).2.eng.chains4 = w.eng.chains4
    rw [gateStep_eng]
  · have h := restStep_chains4 el (gateStep
      { w with trace := w.trace ++ [("ufw", ["status"])] }).2
    rw [gateStep_eng] at h
    exact h

theorem saveWithUFW_chains6 (el : Bool) (w : World) :
    (saveWithUFW el w).2.eng.chains6 = w.eng.chains6 ∨
    (saveWithUFW el w).2.eng.chains6 =
      insertRuleAt1 (deleteRuleC w.eng.chains6 "ufw6-before-input" hookRule)
        "ufw6-before-input" hookRule := by
  unfold saveWithUFW
  dsimp only
  split
  · left
    show (gateStep _).2.eng.chains6 = w.eng.chains6
    rw [gateStep_eng]
  · have h := restStep_chains6 el (gateStep
      { w with trace := w.trace ++ [("ufw", ["status"])] }).2
    rw [gateStep_eng] at h
    exact h

theorem Save_eng_noufw (el : Bool) (w : World) (h : w.ufwInstalled = false) :
    (Save el w).2.eng = w.eng := by
  unfold Save
  simp only [h, Bool.false_eq_true, if_false]
  split
  · rfl
  · rfl

theorem sfc_input_nolink (el : Bool) (sn pfx : String)
    (f : String → Option (List RuleSpec)) :
    setupFamilyChain el false sn pfx f "INPUT" = f "INPUT" := by
  cases hIn : f "INPUT" with
  | none => exact sfc_input_none el false sn pfx f hIn
  | some rs =>
      rw [sfc_input el false sn pfx f hIn]
      simp

set_option maxRecDepth 100000 in
/-- C2 counterexample: with UFW installed but inactive (and an SSH rule
present so the gate passes), one `SetupChain` + `Save` run hooks the block
chain **twice** per family in the evaluated input path — the reconciler
links it into INPUT (because UFW is not active) and the UFW integration
also installs the `ufw-before-input` hook — contradicting the claimed
at-most-one-hook invariant. -/
theorem claim2_counterexample :
    hookCount4 (runSetupAndSave false wC2).2 = 2 ∧
    hookCount6 (runSetupAndSave false wC2).2 = 2 := by decide

/-- C2 amended: the at-most-one-hook invariant holds per family whenever
UFW is absent or already active at setup time (starting from a state with
no hook in the input-path chains); when UFW is installed but inactive the
run installs both the INPUT hook and the `ufw-before-input` hook, as the
counterexample shows. -/
theorem claim2_single_hook_amended (el : Bool) (w : World)
    (h4i : countHookIn (w.eng.chains4 "INPUT") = 0)
    (h4u : countHookIn (w.eng.chains4 "ufw-before-input") = 0)
    (h6i : countHookIn (w.eng.chains6 "INPUT") = 0)
    (h6u : countHookIn (w.eng.chains6 "ufw6-before-input") = 0)
    (hcase : w.ufwInstalled = false ∨ isUFWActiveP w.ufwInstalled w.ufwStatus = true) :
    hookCount4 (runSetupAndSave el w).2 ≤ 1 ∧ hookCount6 (runSetupAndSave el w).2 ≤ 1 := by
  unfold runSetupAndSave
  have hw1c4 : (setupChainW el w).eng.chains4 =
      setupFamilyChain el (!(isUFWActiveP w.ufwInstalled w.ufwStatus))
        ipsetV4Name "ANTISCAN-v4: " w.eng.chains4 := rfl
  have hw1c6 : (setupChainW el w).eng.chains6 =
      setupFamilyChain el (!(isUFWActiveP w.ufwInstalled w.ufwStatus))
        ipsetV6Name "ANTISCAN-v6: " w.eng.chains6 := rfl
  have h4u1 : countHookIn ((setupChainW el w).eng.chains4 "ufw-before-input") = 0 := by
    rw [hw1c4, sfc_ne _ _ _ _ _ ufwBefore_ne_chainName ufwBefore_ne_input]
    exact h4u
  have h6u1 : countHookIn ((setupChainW el w).eng.chains6 "ufw6-before-input") = 0 := by
    rw [hw1c6, sfc_ne _ _ _ _ _ ufw6Before_ne_chainName ufw6Before_ne_input]
    exact h6u
  rcases hcase with hno | hyes
  · have heng : (Save el (setupChainW el w)).2.eng = (setupChainW el w).eng :=
      Save_eng_noufw el (setupChainW el w) hno
    have h4i1 : countHookIn ((setupChainW el w).eng.chains4 "INPUT") ≤ 1 := by
      rw [hw1c4]
      exact sfc_input_count _ _ _ _ _ h4i
    have h6i1 : countHookIn ((setupChainW el w).eng.chains6 "INPUT") ≤ 1 := by
      rw [hw1c6]
      exact sfc_input_count _ _ _ _ _ h6i
    constructor
    · unfold hookCount4
      rw [heng]
      omega
    · unfold hookCount6
      rw [heng]
      omega
  · have hinst : w.ufwInstalled = true := by
      unfold isUFWActiveP at hyes
      rw [Bool.and_eq_true] at hyes
      exact hyes.1
    have hlink : (!(isUFWActiveP w.ufwInstalled w.ufwStatus)) = false := by
      rw [hyes]
      rfl
    have h4i1 : countHookIn ((setupChainW el w).eng.chains4 "INPUT") = 0 := by
      rw [hw1c4, hlink, sfc_input_nolink]
      exact h4i
    have h6i1 : countHookIn ((setupChainW el w).eng.chains6 "INPUT") = 0 := by
      rw [hw1c6, hlink, sfc_input_nolink]
      exact h6i
    have hsave : Save el (setupChainW el w) = saveWithUFW el (setupChainW el w) := by
      unfold Save
      simp [show (setupChainW el w).ufwInstalled = true from hinst]
    rw [hsave]
    constructor
    · unfold hookCount4
      rcases saveWithUFW_chains4 el (setupChainW el w) with hch | hch
      · rw [hch]
        omega
      · rw [hch, relink_other _ _ input_ne_ufwBefore]
        have := relink_count (setupChainW el w).eng.chains4 "ufw-before-input" h4u1
        omega
    · unfold hookCount6
      rcases saveWithUFW_chains6 el (setupChainW el w) with hch | hch
      · rw [hch]
        omega
      · rw [hch, relink_other _ _ input_ne_ufw6Before]
        have := relink_count (setupChainW el w).eng.chains6 "ufw6-before-input" h6u1
        omega

set_option maxRecDepth 100000 in
/-- Witness for the amended C2 with UFW installed and active. -/
theorem claim2_witness :
    (countHookIn (wC2active.eng.chains4 "INPUT") = 0 ∧
      countHookIn (wC2active.eng.chains4 "ufw-before-input") = 0 ∧
      countHookIn (wC2active.eng.chains6 "INPUT") = 0 ∧
      countHookIn (wC2active.eng.chains6 "ufw6-before-input") = 0 ∧
      isUFWActiveP wC2active.ufwInstalled wC2active.ufwStatus = true) ∧
    hookCount4 (runSetupAndSave false wC2active).2 ≤ 1 ∧
    hookCount6 (runSetupAndSave false wC2active).2 ≤ 1 :=
  ⟨⟨by decide, by decide, by decide, by decide, by decide⟩,
    claim2_single_hook_amended false wC2active (by decide) (by decide) (by decide)
      (by decide) (Or.inr (by decide))⟩

end TrafficGuard
